import Mathlib

/-!
Verification development for the `ensdf` ENSDF card-image parser
(`src/ensdf/core.py`).  The Python source is shallowly embedded:

* lines and strings are `List Char`; Python slicing `s[a:b]` and indexing
  `s[i]` are `pySlice`/`pyAt` (indexing can raise `IndexError`, modelled by
  `Except PyErr`);
* Python `float` arithmetic is modelled exactly over `ℚ`.  Because the
  kernel cannot evaluate `Rat.add`/`Rat.mul`/... directly, the embedding
  uses `qAdd`/`qMul`/... built from `mkRat` and the `num`/`den`
  projections; the bridge lemmas `qAdd_eq` ... prove that these are the
  ordinary field operations of `ℚ`;
* exceptions (`IndexError`, `ValueError`, ...) are `Except PyErr`;
* the classes `Quantity` and the function `az_from_nucid` live in
  `util.py`, which is not part of `src/`; they are modelled from the
  spec (see the doc comments marked `Modelled from the spec:`).
-/

deriving instance DecidableEq for Except

set_option synthInstance.maxSize 1024

namespace Ensdf

/-! ### Python string primitives -/

/-- A Python string / line, as a list of characters. -/
abbrev Line := List Char

/-- String literal helper. -/
def lit (s : String) : Line := s.toList

/-- Python `s[a:b]` for `0 ≤ a ≤ b` (out-of-range bounds clamp, never raise). -/
def pySlice (s : Line) (a b : Nat) : Line := (s.take b).drop a

/-- Python `s[i]` for `i ≥ 0`: `none` models an `IndexError`. -/
def pyAt (s : Line) (i : Nat) : Option Char := s[i]?

/-- Characters stripped by Python `str.strip()`. -/
def isPySpace (c : Char) : Bool := c = ' ' ∨ c = '\t' ∨ c = '\n' ∨ c = '\r'

/-- Remove leading whitespace. -/
def stripL : Line → Line
  | [] => []
  | c :: cs => if isPySpace c then stripL cs else c :: cs

/-- Python `s.strip()`. -/
def strip (s : Line) : Line := (stripL (stripL s.reverse).reverse)

/-- Python `s.split(sep)` for a one-character separator: no collapsing of
empty pieces, `"".split(sep) == [""]`. -/
def splitChar (sep : Char) : Line → List Line
  | [] => [[]]
  | c :: cs =>
    if c = sep then [] :: splitChar sep cs
    else
      match splitChar sep cs with
      | [] => [[c]]
      | t :: ts => (c :: t) :: ts

/-- Python `s.split(sep, maxsplit=1)` when the separator occurs: the pieces
before and after the first occurrence.  `none` when the separator is absent
(where Python returns the one-element list `[s]`). -/
def splitFirst (sep : Char) : Line → Option (Line × Line)
  | [] => none
  | c :: cs =>
    if c = sep then some ([], cs)
    else
      match splitFirst sep cs with
      | none => none
      | some (a, b) => some (c :: a, b)

/-- Python `s.split(sep, maxsplit=2)`. -/
def splitMax2 (sep : Char) (s : Line) : List Line :=
  match splitFirst sep s with
  | none => [s]
  | some (a, rest) =>
    match splitFirst sep rest with
    | none => [a, rest]
    | some (b, rest2) => [a, b, rest2]

/-- `lstarts p s`: `p` is an initial segment of `s`. -/
def lstarts : Line → Line → Bool
  | [], _ => true
  | _ :: _, [] => false
  | p :: ps, c :: cs => p = c ∧ lstarts ps cs

/-- Python `pat in s` (contiguous substring test). -/
def hasSub (pat : Line) : Line → Bool
  | [] => lstarts pat []
  | c :: cs => lstarts pat (c :: cs) ∨ hasSub pat cs

/-- Remove the first occurrence of the (non-empty) substring `pat`. -/
def removeSub (pat : Line) : Line → Line
  | [] => []
  | c :: cs =>
    if lstarts pat (c :: cs) then (c :: cs).drop pat.length
    else c :: removeSub pat cs

/-- Pad a line with spaces on the right to length `n` (to build concrete
80-column card images). -/
def padTo (n : Nat) (s : Line) : Line := s ++ List.replicate (n - s.length) ' '

/-- Join lines with a separator character (inverse of `splitChar` on
separator-free pieces). -/
def joinSep (c : Char) : List Line → Line
  | [] => []
  | [s] => s
  | s :: s2 :: rest => s ++ c :: joinSep c (s2 :: rest)

/-! ### Exact rational arithmetic, kernel-computable

The Python source computes with `float`s; the embedding uses exact `ℚ`
arithmetic.  Each operation is written with `mkRat` and the `num`/`den`
projections so that `decide` can evaluate it; the `_eq`/`_iff` lemmas show
each one is the ordinary `ℚ` operation. -/

def qAdd (x y : ℚ) : ℚ := mkRat (x.num * y.den + y.num * x.den) (x.den * y.den)

def qNeg (x : ℚ) : ℚ := mkRat (-x.num) x.den

def qSub (x y : ℚ) : ℚ := qAdd x (qNeg y)

def qMul (x y : ℚ) : ℚ := mkRat (x.num * y.num) (x.den * y.den)

def qInv (x : ℚ) : ℚ :=
  if 0 ≤ x.num then mkRat (x.den : Int) x.num.toNat
  else mkRat (-(x.den : Int)) x.num.natAbs

def qDiv (x y : ℚ) : ℚ := qMul x (qInv y)

def qLe (x y : ℚ) : Bool := decide (x.num * y.den ≤ y.num * x.den)

/-- Python `abs` on a rational. -/
def pyAbs (x : ℚ) : ℚ := if qLe 0 x then x else qNeg x

theorem qAdd_eq (x y : ℚ) : qAdd x y = x + y := by
  have hx : ((x.den : ℚ)) ≠ 0 := Nat.cast_ne_zero.mpr x.den_nz
  have hy : ((y.den : ℚ)) ≠ 0 := Nat.cast_ne_zero.mpr y.den_nz
  rw [qAdd, Rat.mkRat_eq_div]
  push_cast
  conv_rhs => rw [← Rat.num_div_den x, ← Rat.num_div_den y]
  field_simp

theorem qNeg_eq (x : ℚ) : qNeg x = -x := by
  rw [qNeg, Rat.mkRat_eq_div]
  push_cast
  conv_rhs => rw [← Rat.num_div_den x]
  field_simp

theorem qSub_eq (x y : ℚ) : qSub x y = x - y := by
  rw [qSub, qAdd_eq, qNeg_eq, sub_eq_add_neg]

theorem qMul_eq (x y : ℚ) : qMul x y = x * y := by
  have hx : ((x.den : ℚ)) ≠ 0 := Nat.cast_ne_zero.mpr x.den_nz
  have hy : ((y.den : ℚ)) ≠ 0 := Nat.cast_ne_zero.mpr y.den_nz
  rw [qMul, Rat.mkRat_eq_div]
  push_cast
  conv_rhs => rw [← Rat.num_div_den x, ← Rat.num_div_den y]
  field_simp

theorem qInv_eq (x : ℚ) : qInv x = x⁻¹ := by
  have hrepr : qInv x = (x.den : ℚ) / (x.num : ℚ) := by
    rw [qInv]
    rcases le_or_lt 0 x.num with hpos | hneg
    · rw [if_pos hpos, Rat.mkRat_eq_div]
      rw [show ((x.num.toNat : ℕ) : ℚ) = ((x.num : ℤ) : ℚ) from by
        exact_mod_cast congrArg (fun z : ℤ => (z : ℚ)) (Int.toNat_of_nonneg hpos)]
      push_cast
      rfl
    · rw [if_neg (not_le.mpr hneg), Rat.mkRat_eq_div, Int.cast_natAbs, Int.cast_abs,
        abs_of_neg (by exact_mod_cast hneg : (x.num : ℚ) < 0)]
      push_cast
      rw [neg_div_neg_eq]
  rw [hrepr, Rat.inv_def', Rat.divInt_eq_div]
  push_cast
  rfl

theorem qDiv_eq (x y : ℚ) : qDiv x y = x / y := by
  rw [qDiv, qMul_eq, qInv_eq, div_eq_mul_inv]

theorem qLe_iff (x y : ℚ) : qLe x y = true ↔ x ≤ y := by
  rw [qLe, decide_eq_true_iff]
  have hx : (0 : ℚ) < (x.den : ℚ) := by exact_mod_cast x.den_pos
  have hy : (0 : ℚ) < (y.den : ℚ) := by exact_mod_cast y.den_pos
  constructor
  · intro h
    have h2 : ((x.num : ℚ) * y.den ≤ (y.num : ℚ) * x.den) := by exact_mod_cast h
    have h3 := (div_le_div_iff₀ hx hy).mpr h2
    rwa [Rat.num_div_den, Rat.num_div_den] at h3
  · intro h
    have h3 : (x.num : ℚ) / (x.den : ℚ) ≤ (y.num : ℚ) / (y.den : ℚ) := by
      rwa [Rat.num_div_den, Rat.num_div_den]
    have h2 := (div_le_div_iff₀ hx hy).mp h3
    exact_mod_cast h2

theorem pyAbs_eq (x : ℚ) : pyAbs x = |x| := by
  rw [pyAbs]
  rcases le_or_lt 0 x with h | h
  · rw [if_pos ((qLe_iff 0 x).mpr h), abs_of_nonneg h]
  · rw [if_neg (by
      intro hc
      exact absurd ((qLe_iff 0 x).mp hc) (not_le.mpr h)), qNeg_eq, abs_of_neg h]

/-! ### Python exceptions -/

/-- The exceptions the embedded code can raise. -/
inductive PyErr
  /-- Out-of-range index. -/
  | indexError
  /-- `ValueError` (failed tuple unpacking, `min` of an empty sequence, or the
  explicit `raise` in `Record.load_prop`); the offending data is attached. -/
  | valueError (data : Line)
  /-- Arithmetic on `None`. -/
  | typeError
  /-- Constructor called with the wrong number of arguments. -/
  | typeErrorArity
  /-- `get_record_type` fell through all cases. -/
  | notImplemented (c : Char)
  /-- A value string that cannot be parsed as a `Quantity`. -/
  | invalidQuantity (data : Line)
  /-- A nuclide id without a leading mass number. -/
  | invalidNucid (data : Line)
deriving DecidableEq, Repr

/-! ### Numeric string parsing -/

/-- Value of a non-empty all-digit string. -/
def digitsVal : Line → Nat → Option Nat
  | [], acc => some acc
  | c :: cs, acc =>
    if c.isDigit then digitsVal cs (acc * 10 + (c.toNat - 48)) else none

/-- All-digit non-empty string to `Nat`. -/
def parseNatDigits (s : Line) : Option Nat :=
  match s with
  | [] => none
  | _ :: _ => digitsVal s 0

/-- Unsigned decimal numeral (digits with an optional decimal point) as an
exact rational.  Built with `mkRat` so the kernel can evaluate it. -/
def parseRatUnsigned (s : Line) : Option ℚ :=
  match splitFirst '.' s with
  | none => (parseNatDigits s).map (fun n => mkRat (n : Int) 1)
  | some (ip, fp) =>
    if ip = [] ∧ fp = [] then none
    else
      match (if ip = [] then some 0 else parseNatDigits ip),
            (if fp = [] then some 0 else parseNatDigits fp) with
      | some i, some f => some (mkRat (i * 10 ^ fp.length + f : Int) (10 ^ fp.length))
      | _, _ => none

/-- Signed decimal numeral as an exact rational. -/
def parseRat (s : Line) : Option ℚ :=
  match s with
  | '+' :: rest => parseRatUnsigned rest
  | '-' :: rest => (parseRatUnsigned rest).map qNeg
  | _ => parseRatUnsigned s

/-! ### Quantity (modelled from the spec)

`Quantity` lives in `util.py`, which is not included under `src/`; the
definitions below are modelled from spec §4.1 and §3. -/

/-- Qualifier of a quantity (spec §3: exact, less-than, greater-than,
approximately, calculated, systematics, unknown/unspecified, plus the
`GE`/`LE` codes of §4.1). -/
inductive Qual
  | unspecified
  | exact
  | lessThan
  | greaterThan
  | greaterEq
  | lessEq
  | approximately
  | calculated
  | systematics
deriving DecidableEq, Repr

/-- Modelled from the spec: a parsed physical value with uncertainty
(spec §3 "Quantity"): numeric value (present or absent), qualifier,
opaque uncertainty descriptor, and reference-offset tag. -/
structure Quantity where
  val : Option ℚ
  qual : Qual
  uncert : Line
  offset : Option Char
deriving DecidableEq, Repr

/-- The coded qualifiers of spec §4.1 with their meanings. -/
def qualCodes : List (Line × Qual) :=
  [(['A', 'P'], .approximately), (['C', 'A'], .calculated), (['S', 'Y'], .systematics),
   (['G', 'T'], .greaterThan), (['L', 'T'], .lessThan), (['G', 'E'], .greaterEq),
   (['L', 'E'], .lessEq)]

/-- Modelled from the spec (§4.1): strip a trailing reference-offset letter
("a value string whose last character is a letter not part of a number,
e.g. a trailing `+X`") and parse the numeric prefix. -/
def parseMagnitude (s : Line) : Option (ℚ × Option Char) :=
  match s.getLast? with
  | none => none
  | some c =>
    if c.isAlpha then
      let pre := s.dropLast
      let pre2 :=
        match pre.getLast? with
        | some '+' => pre.dropLast
        | some '-' => pre.dropLast
        | _ => pre
      match parseRat (strip pre2) with
      | some q => some (q, some c)
      | none => none
    else
      match parseRat s with
      | some q => some (q, none)
      | none => none

/-- Finish constructing a `Quantity` once the qualifier is known. -/
def quantFinish (q : Qual) (uncert : Line) (s : Line) : Except PyErr Quantity :=
  match parseMagnitude s with
  | some (x, off) => .ok { val := some x, qual := q, uncert := uncert, offset := off }
  | none => .error (.invalidQuantity s)

/-- Modelled from the spec: `Quantity` construction (spec §4.1).  Strip the
value; empty gives an absent value with qualifier unspecified; a leading
relational symbol or a contained coded qualifier sets the qualifier and the
remainder is the magnitude; a trailing offset letter is recorded as the
offset tag; anything that then fails numeric parsing is `InvalidQuantity`.
The uncertainty string is stored as an opaque descriptor.  The `hasUnit`
flag (spec: default true) does not influence parsing. -/
def mkQuantity (value : Line) (uncert : Line) (_hasUnit : Bool) : Except PyErr Quantity :=
  let v := strip value
  match v with
  | [] => .ok { val := none, qual := .unspecified, uncert := uncert, offset := none }
  | '<' :: r => quantFinish .lessThan uncert (strip r)
  | '>' :: r => quantFinish .greaterThan uncert (strip r)
  | _ =>
    match qualCodes.find? (fun pq => hasSub pq.1 v) with
    | some pq => quantFinish pq.2 uncert (strip (removeSub pq.1 v))
    | none => quantFinish .exact uncert v

/-- Modelled from the spec: the mass number `A` "parsed from the nuclide id"
(`az_from_nucid` in the absent `util.py`): the leading digits of the
nuclide id string. -/
def azMass (nucid : Line) : Except PyErr ℚ :=
  match parseNatDigits (nucid.takeWhile Char.isDigit) with
  | some n => .ok (mkRat (n : Int) 1)
  | none => .error (.invalidNucid nucid)

/-! ### Python dict (insertion-ordered, as `prop` mappings are) -/

/-- A Python `dict` with string keys and values: an association list where
updating an existing key keeps its position and a new key is appended. -/
abbrev Dict := List (Line × Line)

/-- Python `d[k] = v`. -/
def dictInsert : Dict → Line → Line → Dict
  | [], k, v => [(k, v)]
  | (k', v') :: rest, k, v =>
    if k' = k then (k, v) :: rest else (k', v') :: dictInsert rest k v

/-- Python `d.get(k)` (`none` = key absent). -/
def dget (d : Dict) (k : Line) : Option Line :=
  (d.find? (fun p => p.1 = k)).map (fun p => p.2)

/-- Python `d[k]` where the key is known to be present; absent keys give `[]`
(the embedding only uses this for keys inserted by construction). -/
def dgetD (d : Dict) (k : Line) : Line := (dget d k).getD []

/-! ### The property grammar `Record.load_prop` (core.py lines 204-227) -/

/-- The abbreviation codes of core.py line 219. -/
def abbrCodes : List Line :=
  [['G', 'T'], ['L', 'T'], ['G', 'E'], ['L', 'E'], ['A', 'P'], ['C', 'A'], ['S', 'Y']]

/-- One `$`-separated entry of a continuation line (core.py lines 207-227).
Returns the updated `prop` and whether the Python `return` was taken
(which exits `load_prop` altogether). -/
def procEntry (prop : Dict) (entry0 : Line) : Except PyErr (Dict × Bool) :=
  let entry := strip entry0
  if entry = [] then .ok (prop, false)
  else
    match splitFirst '=' entry with
    | some (quant, value) => .ok (dictInsert prop (strip quant) (strip value), false)
    | none =>
      match splitFirst '<' entry with
      | some (quant, value) =>
        .ok (dictInsert prop (strip quant) ('<' :: strip value), true)
      | none =>
        match splitFirst '>' entry with
        | some (quant, value) =>
          .ok (dictInsert prop (strip quant) ('>' :: strip value), true)
        | none =>
          if abbrCodes.any (fun a => hasSub (' ' :: a ++ [' ']) entry) then
            -- Python: `quant, quant, value = entry.split(" ", maxsplit=2)` —
            -- the first variable is overwritten by the second token, so the
            -- key is the SECOND token, and the value suffix interpolates it.
            match splitMax2 ' ' entry with
            | [_, t2, t3] =>
              .ok (dictInsert prop (strip t2) (strip t3 ++ ' ' :: t2), true)
            | _ => .error (.valueError entry)
          else
            match entry.getLast? with
            | some '?' => .ok (dictInsert prop entry.dropLast ['?'], true)
            | _ => .error (.valueError entry)

/-- Fold `procEntry` over the `$`-separated entries of one line. -/
def procEntries (prop : Dict) : List Line → Except PyErr (Dict × Bool)
  | [] => .ok (prop, false)
  | e :: es => do
    let (p, stop) ← procEntry prop e
    if stop then .ok (p, true) else procEntries p es

/-- `Record.load_prop`: for each line take `line[9:]`, split on `$`, process
each entry; a taken `return` stops the remaining entries AND lines. -/
def loadProp (prop : Dict) : List Line → Except PyErr Dict
  | [] => .ok prop
  | l :: ls => do
    let (p, stop) ← procEntries prop (splitChar '$' (l.drop 9))
    if stop then .ok p else loadProp p ls

/-! ### Record structures

Levels are referenced by their index in the dataset's `levels` list, and
decay records by their position in the dataset's `records` list (Python
uses object references; the parse builds both lists append-only, so indices
are stable).  `GeneralCommentRecord` wrappers and the stored
`comments`/`xref` accumulators do not participate in any claim and are not
stored on the functional record structures; the attribute tables
`assignedAttrs` below model the full attribute sets of every class. -/

/-- Python `s[i]` as an `Except` (raising `IndexError`). -/
def pyAtE (s : Line) (i : Nat) : Except PyErr Char :=
  match s[i]? with
  | some c => .ok c
  | none => .error .indexError

/-- `LevelRecord` (core.py lines 271-302). -/
structure LevelR where
  prop : Dict
  energy : Quantity
  angMom : Line
  halfLife : Quantity
  questionable : Bool
  expected : Bool
  metastable : Bool
  specStrength : Quantity
  decays : List Nat
  populating : List Nat
deriving DecidableEq, Repr

/-- `BetaRecord` (core.py lines 313-329). -/
structure BetaR where
  prop : Dict
  destLevel : Option Nat
  energy : Quantity
  questionable : Bool
  expected : Bool
deriving DecidableEq, Repr

/-- `ECRecord` (core.py lines 332-348). -/
structure ECR where
  prop : Dict
  destLevel : Option Nat
deriving DecidableEq, Repr

/-- `AlphaRecord` (core.py lines 351-362). -/
structure AlphaR where
  prop : Dict
  destLevel : Option Nat
deriving DecidableEq, Repr

/-- `ParticleRecord` (core.py lines 365-384). -/
structure ParticleR where
  prop : Dict
  destLevel : Option Nat
  promptEmission : Bool
  delayedEmission : Bool
deriving DecidableEq, Repr

/-- `GammaRecord` (core.py lines 387-423). -/
structure GammaR where
  prop : Dict
  energy : Quantity
  relIntensity : Quantity
  multipolarity : Line
  mixingRatio : Quantity
  conversionCoeff : Quantity
  relTotTransIntensity : Quantity
  questionable : Bool
  expected : Bool
  attr : List (Line × Quantity)
  origLevel : Option Nat
  destLevel : Option Nat
deriving DecidableEq, Repr

/-- `ParentRecord` (core.py lines 257-268); only the `prop` mapping gains
content beyond the base `Record` state. -/
structure ParentR where
  prop : Dict
deriving DecidableEq, Repr

/-- `QValueRecord` (core.py lines 230-236). -/
structure QValueR where
  qBetaMinus : Line × Line
  neutronSeparation : Line × Line
  protonSeparation : Line × Line
  alphaDecay : Line × Line
  qRef : Line
deriving DecidableEq, Repr

/-- `CrossReferenceRecord` (core.py lines 239-243). -/
structure XRefR where
  dssym : Char
  dsid : Line
deriving DecidableEq, Repr

/-- `ReferenceRecord` (core.py lines 448-454). -/
structure ReferenceR where
  prop : Dict
deriving DecidableEq, Repr

/-- The non-level records a dataset's `records` list can hold. -/
inductive Rec
  | beta (b : BetaR)
  | ec (e : ECR)
  | alpha (a : AlphaR)
  | particle (p : ParticleR)
  | gamma (g : GammaR)
deriving DecidableEq, Repr

/-! ### Record constructors -/

/-- `ParentRecord.__init__` over a list of lines.  In the source the header
path passes a single line STRING where a list of lines is expected; Python
then treats the string as a sequence of one-character strings (`record[0]`
is the first character, `record[1:]` the remaining ones), which the call
sites below reproduce with `line.map (fun c => [c])`. -/
def parentRecordInit (record : List Line) : Except PyErr ParentR :=
  match record with
  | [] => .error .indexError
  | r0 :: rest => do
    let p : Dict := dictInsert [] (lit "E") (strip (pySlice r0 9 19))
    let p := dictInsert p (lit "DE") (strip (pySlice r0 19 21))
    let p := dictInsert p (lit "J") (strip (pySlice r0 21 39))
    let p := dictInsert p (lit "T") (strip (pySlice r0 39 49))
    let p := dictInsert p (lit "DT") (strip (pySlice r0 49 55))
    let p := dictInsert p (lit "QP") (strip (pySlice r0 64 74))
    let p := dictInsert p (lit "DQP") (strip (pySlice r0 74 76))
    let p := dictInsert p (lit "ION") (strip (pySlice r0 76 80))
    let p ← loadProp p rest
    .ok { prop := p }

/-- `LevelRecord.__init__` (fixed fields, continuation fields, derived
quantities and flags). -/
def levelInit (record : List Line) : Except PyErr LevelR :=
  match record with
  | [] => .error .indexError
  | r0 :: rest => do
    let p : Dict := dictInsert [] (lit "E") (strip (pySlice r0 9 19))
    let p := dictInsert p (lit "DE") (strip (pySlice r0 19 21))
    let p := dictInsert p (lit "J") (strip (pySlice r0 21 39))
    let p := dictInsert p (lit "T") (strip (pySlice r0 39 49))
    let p := dictInsert p (lit "DT") (strip (pySlice r0 49 55))
    let p := dictInsert p (lit "L") (strip (pySlice r0 55 64))
    let p := dictInsert p (lit "S") (strip (pySlice r0 64 74))
    let p := dictInsert p (lit "DS") (strip (pySlice r0 74 76))
    let c76 ← pyAtE r0 76
    let p := dictInsert p (lit "C") (strip [c76])
    let p := dictInsert p (lit "MS") (strip (pySlice r0 77 79))
    let c79 ← pyAtE r0 79
    let p := dictInsert p (lit "Q") (strip [c79])
    let p ← loadProp p rest
    let energy ← mkQuantity (dgetD p (lit "E")) (dgetD p (lit "DE")) true
    let halfLife ← mkQuantity (dgetD p (lit "T")) (dgetD p (lit "DT")) true
    let specStrength ← mkQuantity (dgetD p (lit "S")) (dgetD p (lit "DS")) true
    .ok { prop := p
          energy := energy
          angMom := dgetD p (lit "J")
          halfLife := halfLife
          questionable := dgetD p (lit "Q") = lit "?"
          expected := dgetD p (lit "Q") = lit "S"
          metastable := (dgetD p (lit "MS")).head? = some 'M'
          specStrength := specStrength
          decays := []
          populating := [] }

/-- `BetaRecord.__init__`. -/
def betaInit (record : List Line) (destLevel : Option Nat) : Except PyErr BetaR :=
  match record with
  | [] => .error .indexError
  | r0 :: rest => do
    let p : Dict := dictInsert [] (lit "E") (strip (pySlice r0 9 19))
    let p := dictInsert p (lit "DE") (strip (pySlice r0 19 21))
    let p := dictInsert p (lit "IB") (strip (pySlice r0 21 29))
    let p := dictInsert p (lit "DIB") (strip (pySlice r0 29 31))
    let p := dictInsert p (lit "LOGFT") (strip (pySlice r0 41 49))
    let p := dictInsert p (lit "DFT") (strip (pySlice r0 49 55))
    let c76 ← pyAtE r0 76
    let p := dictInsert p (lit "C") (strip [c76])
    let p := dictInsert p (lit "UN") (strip (pySlice r0 77 79))
    let c79 ← pyAtE r0 79
    let p := dictInsert p (lit "Q") (strip [c79])
    let p ← loadProp p rest
    let energy ← mkQuantity (dgetD p (lit "E")) (dgetD p (lit "DE")) true
    .ok { prop := p
          destLevel := destLevel
          energy := energy
          questionable := dgetD p (lit "Q") = lit "?"
          expected := dgetD p (lit "Q") = lit "S" }

/-- `ECRecord.__init__`. -/
def ecInit (record : List Line) (destLevel : Option Nat) : Except PyErr ECR :=
  match record with
  | [] => .error .indexError
  | r0 :: rest => do
    let p : Dict := dictInsert [] (lit "E") (strip (pySlice r0 9 19))
    let p := dictInsert p (lit "DE") (strip (pySlice r0 19 21))
    let p := dictInsert p (lit "IB") (strip (pySlice r0 21 29))
    let p := dictInsert p (lit "DIB") (strip (pySlice r0 29 31))
    let p := dictInsert p (lit "IE") (strip (pySlice r0 31 39))
    let p := dictInsert p (lit "DIE") (strip (pySlice r0 39 41))
    let p := dictInsert p (lit "LOGFT") (strip (pySlice r0 41 49))
    let p := dictInsert p (lit "DFT") (strip (pySlice r0 49 55))
    let p := dictInsert p (lit "TI") (strip (pySlice r0 64 74))
    let p := dictInsert p (lit "DTI") (strip (pySlice r0 74 76))
    let c76 ← pyAtE r0 76
    let p := dictInsert p (lit "C") (strip [c76])
    let p := dictInsert p (lit "UN") (strip (pySlice r0 77 79))
    let c79 ← pyAtE r0 79
    let p := dictInsert p (lit "Q") (strip [c79])
    let p ← loadProp p rest
    .ok { prop := p, destLevel := destLevel }

/-- `AlphaRecord.__init__`. -/
def alphaInit (record : List Line) (destLevel : Option Nat) : Except PyErr AlphaR :=
  match record with
  | [] => .error .indexError
  | r0 :: rest => do
    let p : Dict := dictInsert [] (lit "E") (strip (pySlice r0 9 19))
    let p := dictInsert p (lit "DE") (strip (pySlice r0 19 21))
    let p := dictInsert p (lit "IA") (strip (pySlice r0 21 29))
    let p := dictInsert p (lit "DIA") (strip (pySlice r0 29 31))
    let p := dictInsert p (lit "HF") (strip (pySlice r0 31 39))
    let p := dictInsert p (lit "DHF") (strip (pySlice r0 39 41))
    let c76 ← pyAtE r0 76
    let p := dictInsert p (lit "C") (strip [c76])
    let c79 ← pyAtE r0 79
    let p := dictInsert p (lit "Q") (strip [c79])
    let p ← loadProp p rest
    .ok { prop := p, destLevel := destLevel }

/-- `ParticleRecord.__init__`. -/
def particleInit (record : List Line) (destLevel : Option Nat) : Except PyErr ParticleR :=
  match record with
  | [] => .error .indexError
  | r0 :: rest => do
    let c7 ← pyAtE r0 7
    let p : Dict := dictInsert [] (lit "D") [c7]
    let c8 ← pyAtE r0 8
    let p := dictInsert p (lit "Particle") [c8]
    let p := dictInsert p (lit "E") (strip (pySlice r0 9 19))
    let p := dictInsert p (lit "DE") (strip (pySlice r0 19 21))
    let p := dictInsert p (lit "IP") (strip (pySlice r0 21 29))
    let p := dictInsert p (lit "DIP") (strip (pySlice r0 29 31))
    let p := dictInsert p (lit "EI") (strip (pySlice r0 31 39))
    let p := dictInsert p (lit "T") (strip (pySlice r0 39 49))
    let p := dictInsert p (lit "DT") (strip (pySlice r0 49 55))
    let p := dictInsert p (lit "L") (strip (pySlice r0 55 64))
    let c76 ← pyAtE r0 76
    let p := dictInsert p (lit "C") (strip [c76])
    let c78 ← pyAtE r0 78
    let p := dictInsert p (lit "COIN") (strip [c78])
    let c79 ← pyAtE r0 79
    let p := dictInsert p (lit "Q") (strip [c79])
    let p ← loadProp p rest
    .ok { prop := p
          destLevel := destLevel
          promptEmission := dgetD p (lit "D") = [' ']
          delayedEmission := dgetD p (lit "D") = ['D'] }

/-- `QValueRecord.__init__` (a single header line; note: it does NOT store
its `dataset` argument). -/
def qvalueInit (line : Line) : QValueR :=
  { qBetaMinus := (strip (pySlice line 9 19), strip (pySlice line 19 21))
    neutronSeparation := (strip (pySlice line 21 29), strip (pySlice line 29 31))
    protonSeparation := (strip (pySlice line 31 39), strip (pySlice line 39 41))
    alphaDecay := (strip (pySlice line 41 49), strip (pySlice line 49 55))
    qRef := strip (pySlice line 55 80) }

/-- `CrossReferenceRecord.__init__`. -/
def xrefInit (line : Line) : Except PyErr XRefR := do
  let c8 ← pyAtE line 8
  .ok { dssym := c8, dsid := strip (pySlice line 9 39) }

/-- `ReferenceRecord.__init__`. -/
def refInit (line : Line) : ReferenceR :=
  { prop := dictInsert (dictInsert (dictInsert [] (lit "MASS") (strip (pySlice line 0 3)))
      (lit "KEYNUM") (strip (pySlice line 9 17)))
      (lit "REFERENCE") (strip (pySlice line 17 80)) }

/-! ### The gamma record and destination resolution
(core.py lines 387-445) -/

/-- Replace the element at index `i` (out-of-range indices change nothing);
models mutating a list element through an object reference. -/
def modifyIdx (f : LevelR → LevelR) : List LevelR → Nat → List LevelR
  | [], _ => []
  | l :: ls, 0 => f l :: ls
  | l :: ls, n + 1 => l :: modifyIdx f ls n

/-- The `BE*`/`BM*` attribute quantities of a gamma record
(core.py lines 418-421): `Quantity(v, has_unit=False)` can raise. -/
def gammaAttrs : Dict → Except PyErr (List (Line × Quantity))
  | [] => .ok []
  | (k, v) :: rest =>
    if pySlice k 0 2 = lit "BE" ∨ pySlice k 0 2 = lit "BM" then do
      let q ← mkQuantity v [] false
      let tail ← gammaAttrs rest
      .ok ((k, q) :: tail)
    else
      gammaAttrs rest

/-- The pure field-extraction part of `GammaRecord.__init__`
(core.py lines 393-421), before `_determine_dest_level` runs. -/
structure GFields where
  prop : Dict
  energy : Quantity
  relIntensity : Quantity
  mixingRatio : Quantity
  conversionCoeff : Quantity
  relTotTransIntensity : Quantity
  attr : List (Line × Quantity)
deriving DecidableEq, Repr

/-- Fixed fields, continuation fields and the derived quantities of a
gamma record. -/
def gammaFields (record : List Line) : Except PyErr GFields :=
  match record with
  | [] => .error .indexError
  | r0 :: rest => do
    let p : Dict := dictInsert [] (lit "E") (strip (pySlice r0 9 19))
    let p := dictInsert p (lit "DE") (strip (pySlice r0 19 21))
    let p := dictInsert p (lit "RI") (strip (pySlice r0 21 29))
    let p := dictInsert p (lit "DRI") (strip (pySlice r0 29 31))
    let p := dictInsert p (lit "M") (strip (pySlice r0 31 41))
    let p := dictInsert p (lit "MR") (strip (pySlice r0 41 49))
    let p := dictInsert p (lit "DMR") (strip (pySlice r0 49 55))
    let p := dictInsert p (lit "CC") (strip (pySlice r0 55 62))
    let p := dictInsert p (lit "DCC") (strip (pySlice r0 62 64))
    let p := dictInsert p (lit "TI") (strip (pySlice r0 64 74))
    let p := dictInsert p (lit "DTI") (strip (pySlice r0 74 76))
    let c76 ← pyAtE r0 76
    let p := dictInsert p (lit "C") (strip [c76])
    let c78 ← pyAtE r0 78
    let p := dictInsert p (lit "COIN") (strip [c78])
    let c79 ← pyAtE r0 79
    let p := dictInsert p (lit "Q") (strip [c79])
    let p ← loadProp p rest
    let energy ← mkQuantity (dgetD p (lit "E")) (dgetD p (lit "DE")) true
    let relIntensity ← mkQuantity (dgetD p (lit "RI")) (dgetD p (lit "DRI")) true
    let mixingRatio ← mkQuantity (dgetD p (lit "MR")) (dgetD p (lit "DMR")) true
    let conversionCoeff ← mkQuantity (dgetD p (lit "CC")) (dgetD p (lit "DCC")) true
    let relTotTransIntensity ← mkQuantity (dgetD p (lit "TI")) (dgetD p (lit "DTI")) true
    let attr ← gammaAttrs p
    .ok { prop := p, energy := energy, relIntensity := relIntensity,
          mixingRatio := mixingRatio, conversionCoeff := conversionCoeff,
          relTotTransIntensity := relTotTransIntensity, attr := attr }

/-- Assemble the gamma record from its parsed fields (destination not yet
resolved, matching the state just before `_determine_dest_level`). -/
def buildGamma (f : GFields) (orig : Option Nat) : GammaR :=
  { prop := f.prop
    energy := f.energy
    relIntensity := f.relIntensity
    multipolarity := dgetD f.prop (lit "M")
    mixingRatio := f.mixingRatio
    conversionCoeff := f.conversionCoeff
    relTotTransIntensity := f.relTotTransIntensity
    questionable := dgetD f.prop (lit "Q") = lit "?"
    expected := dgetD f.prop (lit "Q") = lit "S"
    attr := f.attr
    origLevel := orig
    destLevel := none }

/-- The `orig_level.add_decay(self)` call (core.py lines 391-392): the gamma
(identified by its record index `gid`) joins the origin level's `decays`
list; in the source this happens before any field parsing, and in any case
before destination resolution. -/
def decaysUpd (levels : List LevelR) (orig : Option Nat) (gid : Nat) : List LevelR :=
  match orig with
  | some i => modifyIdx (fun l => { l with decays := l.decays ++ [gid] }) levels i
  | none => levels

/-- The recoil-corrected transition energy of core.py line 435:
`energy_gamma * (1 + 2 * (.001 * energy_gamma) / (mass * amu))`. -/
def energyI (eg mass amu : ℚ) : ℚ :=
  qMul eg (qAdd 1 (qDiv (qMul 2 (qMul (mkRat 1 1000) eg)) (qMul mass amu)))

/-- `energyI` is the formula of core.py line 435 in ordinary `ℚ`
arithmetic (note the factor 2 in front of `.001`). -/
theorem energyI_eq (eg mass amu : ℚ) :
    energyI eg mass amu = eg * (1 + 2 * ((1 / 1000) * eg) / (mass * amu)) := by
  rw [energyI, qMul_eq, qAdd_eq, qDiv_eq, qMul_eq, qMul_eq, qMul_eq, Rat.mkRat_eq_div]
  norm_num

/-- The destination-energy estimate of `_determine_dest_level`
(core.py lines 426-438).  `ok none` models the early `return` paths
(`FL == "?"`, or no `FL` and no originating level); `ok (some none)` models
proceeding with `dest_energy = None` (an `FL` quantity without a value),
which Python only turns into a `TypeError` once a candidate's key is
evaluated; `ok (some (some d))` is a computed estimate. -/
def destEnergyEstimate (amu : ℚ) (nucid : Line) (levels : List LevelR) (g : GammaR) :
    Except PyErr (Option (Option ℚ)) :=
  match dget g.prop (lit "FL") with
  | some fl =>
    if fl = lit "?" then .ok none
    else do
      let q ← mkQuantity fl [] true
      .ok (some q.val)
  | none =>
    match g.origLevel with
    | some i =>
      match g.energy.val with
      | none => .error .typeError
      | some eg => do
        let mass ← azMass nucid
        match levels[i]? with
        | none => .error .indexError
        | some ol =>
          match ol.energy.val with
          | none => .error .typeError
          | some olE => .ok (some (some (qSub olE (energyI eg mass amu))))
    | none => .ok none

/-- Index every level with its position (Python object identity is modelled
by position in the dataset's `levels` list). -/
def enumL (n : Nat) : List LevelR → List (Nat × LevelR)
  | [] => []
  | l :: ls => (n, l) :: enumL (n + 1) ls

/-- Evaluate `x.energy.val` for every candidate (the `min` key function
evaluates it for each element; a `None` value is a `TypeError`). -/
def candVals : List (Nat × LevelR) → Except PyErr (List (Nat × ℚ))
  | [] => .ok []
  | (i, l) :: rest =>
    match l.energy.val with
    | none => .error .typeError
    | some v => do
      let vs ← candVals rest
      .ok ((i, v) :: vs)

/-- Combine the head candidate with the best of the rest: on a tie the
earlier (head) element wins, as Python's `min` keeps the first minimum. -/
def argminPick (dest : ℚ) (iv : Nat × ℚ) : Option (Nat × ℚ) → Option (Nat × ℚ)
  | none => some iv
  | some (j, w) =>
    if qLe (pyAbs (qSub iv.2 dest)) (pyAbs (qSub w dest)) then some iv else some (j, w)

/-- Python `min(..., key=lambda x: abs(x.energy.val - dest_energy))`:
the FIRST element attaining the minimal key wins ties. -/
def argminAbs (dest : ℚ) : List (Nat × ℚ) → Option (Nat × ℚ)
  | [] => none
  | iv :: rest => argminPick dest iv (argminAbs dest rest)

/-- `_determine_dest_level`'s candidate filtering and nearest-match choice
(core.py lines 439-445).  Returns the index of the chosen destination
level, or `none` when resolution is silently skipped (early return, or the
`ValueError` of `min` over an empty candidate list, which the source
catches and ignores). -/
def determineDest (amu : ℚ) (nucid : Line) (levels : List LevelR) (g : GammaR) :
    Except PyErr (Option Nat) := do
  let de ← destEnergyEstimate amu nucid levels g
  match de with
  | none => .ok none
  | some dOpt =>
    match (enumL 0 levels).filter (fun p => p.2.energy.offset = g.energy.offset) with
    | [] => .ok none
    | c :: cs =>
      match dOpt with
      | none => .error .typeError
      | some d => do
        let cvals ← candVals (c :: cs)
        match argminAbs d cvals with
        | none => .ok none
        | some (i, _) => .ok (some i)

/-- `GammaRecord.__init__`: build the record (appending it to the origin
level's `decays`), then run `_determine_dest_level`, which on success sets
`dest_level` and appends the gamma to the destination level's `populating`
list.  Returns the gamma and the updated `levels` list. -/
def gammaInit (amu : ℚ) (nucid : Line) (levels : List LevelR) (gid : Nat)
    (record : List Line) (orig : Option Nat) : Except PyErr (GammaR × List LevelR) := do
  let f ← gammaFields record
  let g0 := buildGamma f orig
  let lv1 := decaysUpd levels orig gid
  let r ← determineDest amu nucid lv1 g0
  match r with
  | none => .ok (g0, lv1)
  | some i =>
    .ok ({ g0 with destLevel := some i },
         modifyIdx (fun l => { l with populating := l.populating ++ [gid] }) lv1 i)

/-! ### The dataset parser state machine (`Dataset._parse_dataset`) -/

/-- The parsed dataset state (`Dataset.__init__` attributes). -/
structure DState where
  nucid : Line
  datasetId : Line
  datasetRef : Line
  publication : Line
  dateRaw : Line
  comments : List Line
  history : Line
  historyMap : Dict
  levels : List LevelR
  records : List Rec
  qrecords : List QValueR
  parents : List ParentR
  references : List ReferenceR
  crossRefs : List XRefR
deriving DecidableEq, Repr

/-- The loop-local parser state of `_parse_dataset`. -/
structure PState where
  header : Bool
  comments : List (List Line)
  record : List Line
  xrefAcc : List Line
  level : Option Nat
  ds : DState
deriving DecidableEq, Repr

/-- The body-opening record signature (core.py lines 115-116 and 134-135):
`line[7].lower() in "bagel" or (line[7] in " D" and line[8] in "PAN")`.
`line[8]` is only touched when the first disjunct fails with `line[7]`
blank or `"D"` (Python short-circuiting). -/
def isBodyOpen (line : Line) : Except PyErr Bool := do
  let c7 ← pyAtE line 7
  if c7.toLower ∈ ['b', 'a', 'g', 'e', 'l'] then .ok true
  else if c7 = ' ' ∨ c7 = 'D' then do
    let c8 ← pyAtE line 8
    .ok (c8 ∈ ['P', 'A', 'N'])
  else .ok false

/-- `get_record_type` (core.py lines 457-475). -/
inductive RKind
  | xrefK | qvK | levelK | betaK | ecK | alphaK | gammaK | particleK
deriving DecidableEq, Repr

/-- `get_record_type` dispatches on column 7 (and column 8 for the particle
family) of the record's first line. -/
def getRecordType (r0 : Line) : Except PyErr RKind := do
  let c7 ← pyAtE r0 7
  if c7 = 'X' then .ok .xrefK
  else if c7 = 'Q' then .ok .qvK
  else if c7 = 'L' then .ok .levelK
  else if c7 = 'B' then .ok .betaK
  else if c7 = 'E' then .ok .ecK
  else if c7 = 'A' then .ok .alphaK
  else if c7 = 'G' then .ok .gammaK
  else if c7 = ' ' ∨ c7 = 'D' then do
    let c8 ← pyAtE r0 8
    if c8 ∈ ['P', 'A', 'N'] then .ok .particleK else .error (.notImplemented c7)
  else .error (.notImplemented c7)

/-- The classification a body-state line receives (core.py lines 133-156). -/
inductive BodyClass
  | recordStart
  | xrefCont
  | plainCont
  | commentStart
  | commentCont
  | fallbackCont
deriving DecidableEq, Repr

/-- Body-state line classification: the `if`/`elif` chain of core.py
lines 134-156, in source order. -/
def classifyBody (line : Line) : Except PyErr BodyClass := do
  let bo ← isBodyOpen line
  if bo ∧ pySlice line 5 7 = [' ', ' '] then .ok .recordStart
  else if pySlice line 5 7 = ['X', ' '] then .ok .xrefCont
  else
    match pyAt line 6 with
    | none => .error .indexError
    | some c6 =>
      if c6 = ' ' then .ok .plainCont
      else if (pySlice line 5 7).map Char.toLower ∈ [[' ', 'c'], [' ', 'd'], [' ', 't']] then
        .ok .commentStart
      else if c6.toLower ∈ ['c', 'd', 't'] then .ok .commentCont
      else .ok .fallbackCont

/-- Append a line to the most recent comment block (`comments[-1].append`);
`none` models the `IndexError` on an empty comment list. -/
def appendLast (blocks : List (List Line)) (line : Line) : Option (List (List Line)) :=
  match blocks with
  | [] => none
  | [b] => some [b ++ [line]]
  | b :: bs => (appendLast bs line).map (fun t => b :: t)

/-- Close a pending record (core.py lines 137-141 and 171-179): an `"L"`
first line becomes a new level (and the new current-level context);
otherwise dispatch on `get_record_type`.  The record types whose
constructors do not accept the five arguments `_add_record` passes
(`CrossReference`, `QValue`, `Level` via dispatch) raise a `TypeError`. -/
def closeRecord (amu : ℚ) (st : PState) : Except PyErr PState :=
  match st.record with
  | [] => .ok st
  | r0 :: _ => do
    let c7 ← pyAtE r0 7
    if c7 = 'L' then do
      let lvl ← levelInit st.record
      .ok { st with ds := { st.ds with levels := st.ds.levels ++ [lvl] }
                    level := some st.ds.levels.length }
    else do
      let k ← getRecordType r0
      match k with
      | .betaK => do
        let b ← betaInit st.record st.level
        .ok { st with ds := { st.ds with records := st.ds.records ++ [Rec.beta b] } }
      | .ecK => do
        let e ← ecInit st.record st.level
        .ok { st with ds := { st.ds with records := st.ds.records ++ [Rec.ec e] } }
      | .alphaK => do
        let a ← alphaInit st.record st.level
        .ok { st with ds := { st.ds with records := st.ds.records ++ [Rec.alpha a] } }
      | .particleK => do
        let pr ← particleInit st.record st.level
        .ok { st with ds := { st.ds with records := st.ds.records ++ [Rec.particle pr] } }
      | .gammaK => do
        let (g, lv) ← gammaInit amu st.ds.nucid st.ds.levels st.ds.records.length
          st.record st.level
        .ok { st with ds := { st.ds with levels := lv
                                         records := st.ds.records ++ [Rec.gamma g] } }
      | .xrefK => .error .typeErrorArity
      | .qvK => .error .typeErrorArity
      | .levelK => .error .typeErrorArity

/-- One header-state line (core.py lines 111-129).  The returned `Bool` is
whether the line loop `continue`s (still in header state); `false` means
the same line falls through to body-state processing. -/
def headerStep (st : PState) (line : Line) : Except PyErr (PState × Bool) :=
  match pyAt line 6 with
  | none => .error .indexError
  | some c6 =>
    if c6.toUpper ∈ ['C', 'D', 'T'] then
      .ok ({ st with ds := { st.ds with comments := st.ds.comments ++ [line] } }, true)
    else do
      let bo ← isBodyOpen line
      if bo then .ok ({ st with header := false }, false)
      else
        match pyAt line 7 with
        | none => .error .indexError
        | some c7 =>
          if c7 = 'X' then do
            let x ← xrefInit line
            .ok ({ st with ds := { st.ds with crossRefs := st.ds.crossRefs ++ [x] } }, true)
          else if c7 = 'P' then do
            -- Python passes the line STRING where `ParentRecord` expects a
            -- list of lines; the string behaves as its one-character pieces.
            let p ← parentRecordInit (line.map (fun c => [c]))
            .ok ({ st with ds := { st.ds with parents := st.ds.parents ++ [p] } }, true)
          else if c7 = 'R' then
            .ok ({ st with ds :=
              { st.ds with references := st.ds.references ++ [refInit line] } }, true)
          else if c7.toUpper = 'Q' then
            .ok ({ st with ds :=
              { st.ds with qrecords := st.ds.qrecords ++ [qvalueInit line] } }, true)
          else if c7.toUpper = 'H' then
            .ok ({ st with ds :=
              { st.ds with history := st.ds.history ++ pySlice line 9 80 ++ [' '] } }, true)
          else
            .ok (st, true)

/-- One body-state line (core.py lines 133-156). -/
def bodyStep (amu : ℚ) (st : PState) (line : Line) : Except PyErr PState := do
  let cls ← classifyBody line
  match cls with
  | .recordStart => do
    let st ← closeRecord amu st
    .ok { st with comments := [], record := [line], xrefAcc := [] }
  | .xrefCont => .ok { st with xrefAcc := st.xrefAcc ++ [line] }
  | .plainCont => .ok { st with record := st.record ++ [line] }
  | .commentStart => .ok { st with comments := st.comments ++ [[line]] }
  | .commentCont =>
    match appendLast st.comments line with
    | none => .error .indexError
    | some cs => .ok { st with comments := cs }
  | .fallbackCont => .ok { st with record := st.record ++ [line] }

/-- One line of the main loop: header processing, then (unless the loop
`continue`s) body processing of the same line. -/
def stepLine (amu : ℚ) (st : PState) (line : Line) : Except PyErr PState := do
  if st.header then do
    let (st1, cont) ← headerStep st line
    if cont then .ok st1 else bodyStep amu st1 line
  else bodyStep amu st line

/-- The whole line loop. -/
def runLines (amu : ℚ) : PState → List Line → Except PyErr PState
  | st, [] => .ok st
  | st, l :: ls => do
    let st1 ← stepLine amu st l
    runLines amu st1 ls

/-- One `$`-separated history entry (core.py lines 182-187): split on the
first `=`; a segment without `=` raises a `ValueError` that is caught and
ignored. -/
def historyStep (d : Dict) (entry : Line) : Dict :=
  match splitFirst '=' entry with
  | some (k, v) => dictInsert d (strip k) (strip v)
  | none => d

/-- History parsing (core.py line 181): `history.split("$")[:-1]` — the
LAST segment is dropped unconditionally. -/
def parseHistory (hist : Line) : Dict :=
  ((splitChar '$' hist).dropLast).foldl historyStep []

/-- `Dataset.__init__` + `Dataset._parse_dataset`: split the text on
newlines, parse the header columns, run the loop over `raw[:-1]`, close the
final pending record, then parse the history buffer.  The external physical
constant `amu` (`scipy.constants`) is a parameter. -/
def parseDataset (amu : ℚ) (text : Line) : Except PyErr DState :=
  match splitChar '\n' text with
  | [] => .error .indexError
  | header :: raw => do
    let ds0 : DState :=
      { nucid := strip (pySlice header 0 5)
        datasetId := strip (pySlice header 9 39)
        datasetRef := strip (pySlice header 39 65)
        publication := strip (pySlice header 65 74)
        dateRaw := strip (pySlice header 74 80)
        comments := [], history := [], historyMap := []
        levels := [], records := [], qrecords := [], parents := []
        references := [], crossRefs := [] }
    let st0 : PState :=
      { header := true, comments := [], record := [], xrefAcc := [], level := none, ds := ds0 }
    let st1 ← runLines amu st0 raw.dropLast
    let st2 ← closeRecord amu st1
    .ok { st2.ds with historyMap := parseHistory st2.ds.history }

/-! ### Concrete card images used by the scenario claims -/

/-- The CODATA value of the atomic-mass-unit energy equivalent in MeV
(931.49410242), the external constant `scipy.constants` supplies. -/
def amuC : ℚ := mkRat 93149410242 100000000

/-- Header line of the concrete scenarios: nuclide id `100MO`. -/
def hdrLine : Line := padTo 80 (lit "100MO    TEST")

/-- A ground-state level record line (energy string `"0"`). -/
def levelLine0 : Line := padTo 80 (lit "100MO  L 0")

/-- A level record line at energy string `"1000"`. -/
def levelLine1000 : Line := padTo 80 (lit "100MO  L 1000")

/-- A gamma record line with `E="1000"` and no `FL` property. -/
def gammaLine1000 : Line := padTo 80 (lit "100MO  G 1000")

/-- A history header line whose text after column 9 is `TYP=B+$MOM=GS$`. -/
def hLineTyp : Line := padTo 80 (lit "100MO  H TYP=B+$MOM=GS$")

/-- A history header line whose content does not end with `$`. -/
def hLineAB : Line := padTo 80 (lit "100MO  H A=1$B=2")

/-- Dataset: ground-state level, 1000-keV level, gamma of 1000 keV from the
second level (ends with a newline, i.e. a trailing empty raw line). -/
def c3text : Line := joinSep '\n' [hdrLine, levelLine0, levelLine1000, gammaLine1000, []]

/-- Dataset: one ground-state level and a 1000-keV gamma from it. -/
def c5text : Line := joinSep '\n' [hdrLine, levelLine0, gammaLine1000, []]

/-- Dataset: header plus one history line (`$`-terminated). -/
def c6text : Line := joinSep '\n' [hdrLine, hLineTyp, []]

/-- Dataset: header plus one history line not terminated by `$`. -/
def c6badText : Line := joinSep '\n' [hdrLine, hLineAB, []]

/-- Dataset whose final line is a (non-empty) level record line and which
does NOT end with a newline. -/
def c7text : Line := joinSep '\n' [hdrLine, levelLine0, levelLine1000]

/-- The destination-level field of a record (levels are not stored in
`records`, so every entry is a decay record). -/
def recDest : Rec → Option Nat
  | .beta b => b.destLevel
  | .ec e => e.destLevel
  | .alpha a => a.destLevel
  | .particle p => p.destLevel
  | .gamma g => g.destLevel

/-- Level summary used by scenario statements: energy value, energy offset
tag, `decays` list, `populating` list. -/
def levelSummary (l : LevelR) : Option ℚ × Option Char × List Nat × List Nat :=
  (l.energy.val, l.energy.offset, l.decays, l.populating)

/-! ### Helper lemmas -/

theorem modifyIdx_getElem (f : LevelR → LevelR) (ls : List LevelR) (n i : Nat) :
    (modifyIdx f ls n)[i]? = if i = n then (ls[n]?).map f else ls[i]? := by
  induction ls generalizing n i with
  | nil => simp [modifyIdx]
  | cons l ls ih =>
    cases n with
    | zero =>
      cases i with
      | zero => simp [modifyIdx]
      | succ i => simp [modifyIdx]
    | succ n =>
      cases i with
      | zero => simp [modifyIdx]
      | succ i =>
        simp only [modifyIdx, List.getElem?_cons_succ, ih n i]
        by_cases h : i = n
        · simp [h]
        · simp [h, Nat.succ_ne_succ]

theorem modifyIdx_map_eq {β : Type} (f : LevelR → LevelR) (h : LevelR → β)
    (hf : ∀ x, h (f x) = h x) (ls : List LevelR) (n : Nat) :
    (modifyIdx f ls n).map h = ls.map h := by
  induction ls generalizing n with
  | nil => simp [modifyIdx]
  | cons l ls ih =>
    cases n with
    | zero => simp [modifyIdx, hf]
    | succ n => simp [modifyIdx, ih n]

theorem enumL_mem_of_getElem (n k : Nat) (ls : List LevelR) (l : LevelR)
    (h : ls[k]? = some l) : (n + k, l) ∈ enumL n ls := by
  induction ls generalizing n k with
  | nil => simp at h
  | cons x ls ih =>
    cases k with
    | zero =>
      simp only [List.getElem?_cons_zero, Option.some_inj] at h
      simp [enumL, h]
    | succ k =>
      simp only [List.getElem?_cons_succ] at h
      have := ih (n + 1) k h
      simp only [enumL, List.mem_cons]
      right
      have harith : n + (k + 1) = (n + 1) + k := by omega
      rwa [harith]

theorem enumL_getElem_of_mem (n i : Nat) (ls : List LevelR) (l : LevelR)
    (h : (i, l) ∈ enumL n ls) : ∃ k, i = n + k ∧ ls[k]? = some l := by
  induction ls generalizing n with
  | nil => simp [enumL] at h
  | cons x ls ih =>
    simp only [enumL, List.mem_cons] at h
    rcases h with h | h
    · have h1 : i = n := congrArg Prod.fst h
      have h2 : l = x := congrArg Prod.snd h
      exact ⟨0, by omega, by simp [h2]⟩
    · obtain ⟨k, hk, hget⟩ := ih (n + 1) h
      exact ⟨k + 1, by omega, by simpa using hget⟩

theorem mem_of_getElemEq {α : Type} (ls : List α) (k : Nat) (l : α)
    (h : ls[k]? = some l) : l ∈ ls := by
  induction ls generalizing k with
  | nil => simp at h
  | cons x xs ih =>
    cases k with
    | zero =>
      simp only [List.getElem?_cons_zero, Option.some_inj] at h
      simp [h]
    | succ k =>
      simp only [List.getElem?_cons_succ] at h
      exact List.mem_cons_of_mem _ (ih k h)

theorem enumL_snd_mem (n i : Nat) (ls : List LevelR) (l : LevelR)
    (h : (i, l) ∈ enumL n ls) : l ∈ ls := by
  obtain ⟨k, _, hget⟩ := enumL_getElem_of_mem n i ls l h
  exact mem_of_getElemEq ls k l hget

theorem candVals_mem_of (xs : List (Nat × LevelR)) (ys : List (Nat × ℚ))
    (h : candVals xs = .ok ys) (j : Nat) (lj : LevelR) (vj : ℚ)
    (hmem : (j, lj) ∈ xs) (hval : lj.energy.val = some vj) : (j, vj) ∈ ys := by
  induction xs generalizing ys with
  | nil => simp at hmem
  | cons x xs ih =>
    obtain ⟨i, l⟩ := x
    simp only [candVals] at h
    cases hv : l.energy.val with
    | none => rw [hv] at h; exact absurd h (by simp)
    | some v =>
      rw [hv] at h
      cases hrest : candVals xs with
      | error e => rw [hrest] at h; exact absurd h (by simp [Bind.bind, Except.bind])
      | ok vs =>
        rw [hrest] at h
        simp only [Bind.bind, Except.bind, Except.ok.injEq] at h
        subst h
        rcases List.mem_cons.mp hmem with hx | hx
        · have h1 : j = i := congrArg Prod.fst hx
          have h2 : lj = l := congrArg Prod.snd hx
          subst h1
          subst h2
          have h3 : vj = v := Option.some.inj (hval.symm.trans hv)
          subst h3
          exact List.mem_cons_self _ _
        · exact List.mem_cons_of_mem _ (ih vs hrest hx)

theorem candVals_mem_rev (xs : List (Nat × LevelR)) (ys : List (Nat × ℚ))
    (h : candVals xs = .ok ys) (i : Nat) (v : ℚ) (hmem : (i, v) ∈ ys) :
    ∃ l, (i, l) ∈ xs ∧ l.energy.val = some v := by
  induction xs generalizing ys with
  | nil =>
    simp only [candVals, Except.ok.injEq] at h
    subst h
    simp at hmem
  | cons x xs ih =>
    obtain ⟨j, l⟩ := x
    simp only [candVals] at h
    cases hv : l.energy.val with
    | none => rw [hv] at h; exact absurd h (by simp)
    | some w =>
      rw [hv] at h
      cases hrest : candVals xs with
      | error e => rw [hrest] at h; exact absurd h (by simp [Bind.bind, Except.bind])
      | ok vs =>
        rw [hrest] at h
        simp only [Bind.bind, Except.bind, Except.ok.injEq] at h
        subst h
        rcases List.mem_cons.mp hmem with hx | hx
        · have h1 : i = j := congrArg Prod.fst hx
          have h2 : v = w := congrArg Prod.snd hx
          subst h1
          subst h2
          exact ⟨l, List.mem_cons_self _ _, hv⟩
        · obtain ⟨l', hmem', hval'⟩ := ih vs hrest hx
          exact ⟨l', List.mem_cons_of_mem _ hmem', hval'⟩

theorem argminPick_ne_none (dest : ℚ) (iv : Nat × ℚ) (o : Option (Nat × ℚ)) :
    argminPick dest iv o ≠ none := by
  cases o with
  | none => simp [argminPick]
  | some p =>
    obtain ⟨j, w⟩ := p
    simp only [argminPick]
    by_cases hle : qLe (pyAbs (qSub iv.2 dest)) (pyAbs (qSub w dest)) = true
    · rw [if_pos hle]; simp
    · rw [if_neg hle]; simp

theorem argminAbs_none (dest : ℚ) (xs : List (Nat × ℚ)) :
    argminAbs dest xs = none ↔ xs = [] := by
  cases xs with
  | nil => simp [argminAbs]
  | cons iv rest =>
    simp only [argminAbs]
    constructor
    · intro h
      exact absurd h (argminPick_ne_none dest iv (argminAbs dest rest))
    · intro h
      exact absurd h (by simp)

/-- The comparison the `min` key induces, in ordinary `ℚ` terms. -/
theorem qLe_abs_iff (a b d : ℚ) :
    qLe (pyAbs (qSub a d)) (pyAbs (qSub b d)) = true ↔ |a - d| ≤ |b - d| := by
  rw [qLe_iff, pyAbs_eq, pyAbs_eq, qSub_eq, qSub_eq]

theorem argminAbs_spec (dest : ℚ) (xs : List (Nat × ℚ)) (i : Nat) (v : ℚ)
    (h : argminAbs dest xs = some (i, v)) :
    (i, v) ∈ xs ∧ ∀ p ∈ xs, |v - dest| ≤ |p.2 - dest| := by
  induction xs generalizing i v with
  | nil => simp [argminAbs] at h
  | cons x rest ih =>
    obtain ⟨i0, v0⟩ := x
    simp only [argminAbs] at h
    cases h1 : argminAbs dest rest with
    | none =>
      rw [h1] at h
      simp only [argminPick, Option.some_inj] at h
      have hrest : rest = [] := (argminAbs_none dest rest).mp h1
      subst hrest
      cases h
      refine ⟨List.mem_cons_self _ _, ?_⟩
      intro p hp
      rcases List.mem_cons.mp hp with hp | hp
      · rw [hp]
      · simp at hp
    | some p =>
      obtain ⟨j, w⟩ := p
      rw [h1] at h
      simp only [argminPick] at h
      obtain ⟨hmemr, hminr⟩ := ih j w h1
      by_cases hle : qLe (pyAbs (qSub v0 dest)) (pyAbs (qSub w dest)) = true
      · rw [if_pos hle] at h
        simp only [Option.some_inj] at h
        cases h
        refine ⟨List.mem_cons_self _ _, ?_⟩
        intro p hp
        rcases List.mem_cons.mp hp with hp | hp
        · rw [hp]
        · calc |v - dest| ≤ |w - dest| := (qLe_abs_iff v w dest).mp hle
            _ ≤ |p.2 - dest| := hminr p hp
      · rw [if_neg hle] at h
        simp only [Option.some_inj] at h
        cases h
        refine ⟨List.mem_cons_of_mem _ hmemr, ?_⟩
        intro p hp
        rcases List.mem_cons.mp hp with hp | hp
        · rw [hp]
          have hlt : ¬ |v0 - dest| ≤ |v - dest| := by
            intro hc
            exact hle ((qLe_abs_iff v0 v dest).mpr hc)
          exact le_of_lt (not_le.mp hlt)
        · exact hminr p hp

theorem splitChar_no_sep (c : Char) (a : Line) (h : c ∉ a) : splitChar c a = [a] := by
  induction a with
  | nil => simp [splitChar]
  | cons x xs ih =>
    have hx : ¬ x = c := by
      intro hc
      exact h (by simp [hc])
    have htail : c ∉ xs := fun hc => h (List.mem_cons_of_mem _ hc)
    simp only [splitChar, if_neg hx, ih htail]

theorem splitChar_append_sep (c : Char) (a y : Line) (h : c ∉ a) :
    splitChar c (a ++ c :: y) = a :: splitChar c y := by
  induction a with
  | nil => simp [splitChar]
  | cons x xs ih =>
    have hx : ¬ x = c := by
      intro hc
      exact h (by simp [hc])
    have htail : c ∉ xs := fun hc => h (List.mem_cons_of_mem _ hc)
    simp only [List.cons_append, splitChar, if_neg hx]
    rw [show xs.append (c :: y) = xs ++ (c :: y) from rfl, ih htail]

theorem splitChar_join (c : Char) (ls : List Line) (h : ∀ s ∈ ls, c ∉ s)
    (hne : ls ≠ []) : splitChar c (joinSep c ls) = ls := by
  induction ls with
  | nil => exact absurd rfl hne
  | cons s rest ih =>
    cases rest with
    | nil =>
      simp only [joinSep]
      exact splitChar_no_sep c s (h s (List.mem_cons_self _ _))
    | cons s2 rest2 =>
      have hs : c ∉ s := h s (List.mem_cons_self _ _)
      have hrest : ∀ t ∈ s2 :: rest2, c ∉ t := fun t ht => h t (List.mem_cons_of_mem _ ht)
      simp only [joinSep]
      rw [splitChar_append_sep c s (joinSep c (s2 :: rest2)) hs]
      rw [ih hrest (by simp)]

theorem loadProp_charPieces (p : Dict) (cs : Line) :
    loadProp p (cs.map (fun ch => [ch])) = .ok p := by
  induction cs generalizing p with
  | nil => simp [loadProp]
  | cons ch rest ih =>
    simp only [List.map_cons, loadProp]
    have h1 : splitChar '$' (([ch] : Line).drop 9) = [[]] := by rfl
    rw [h1]
    have h2 : procEntries p [[]] = .ok (p, false) := by
      simp [procEntries, procEntry, strip, stripL, Bind.bind, Except.bind]
    rw [h2]
    simpa [Bind.bind, Except.bind] using ih p

/-! ### Attribute tables

The functional record structures above keep only the fields the claims
compute with; the tables below record, for each record class, the full set of
`self.<attr> = ...` assignments its `__init__` performs (including those of
`Record.__init__` / `DecayRecord.__init__` through `super()`), read off the
source line by line.  They settle which classes store the `dataset`
back-reference. -/

/-- The attribute names assigned by the record constructors. -/
inductive Attr
  | propA | datasetA | commentsA | xrefA
  | decaysA | populatingA | attrsA | energyA | angMomA | halfLifeA
  | questionableA | expectedA | metastableA | specStrengthA
  | destLevelA | origLevelA | relIntensityA | multipolarityA | mixingRatioA
  | conversionCoeffA | relTotTransIntensityA | attrA
  | promptEmissionA | delayedEmissionA
  | qBetaMinusA | neutronSeparationA | protonSeparationA | alphaDecayA | qRefA
  | dssymA | dsidA | commentA
deriving DecidableEq, Repr

/-- The concrete record classes a parse can instantiate. -/
inductive RecordKind
  | level | parent | qvalue | crossref | reference | comment
  | beta | ec | alpha | particle | gamma
deriving DecidableEq, Repr

/-- `Record.__init__` assignments (core.py lines 195-202). -/
def baseRecordAttrs : List Attr := [.propA, .datasetA, .commentsA, .xrefA]

/-- `DecayRecord.__init__` assignments (core.py lines 309-311). -/
def decayRecordAttrs : List Attr := baseRecordAttrs ++ [.destLevelA]

/-- The attributes each record class's `__init__` assigns, transcribed from
core.py: `Record` 195-202, `QValueRecord` 231-236, `CrossReferenceRecord`
240-243, `GeneralCommentRecord` 247-249, `ParentRecord` 258-268 (only
`prop` mutations beyond the base), `LevelRecord` 272-302, `DecayRecord`
309-311, `BetaRecord` 314-329, `ECRecord` 333-348, `AlphaRecord` 352-362,
`ParticleRecord` 366-384, `GammaRecord` 388-421, `ReferenceRecord`
449-454. -/
def assignedAttrs : RecordKind → List Attr
  | .level => baseRecordAttrs ++
      [.decaysA, .populatingA, .attrsA, .energyA, .angMomA, .halfLifeA,
       .questionableA, .expectedA, .metastableA, .specStrengthA]
  | .parent => baseRecordAttrs
  | .qvalue => [.qBetaMinusA, .neutronSeparationA, .protonSeparationA, .alphaDecayA, .qRefA]
  | .crossref => [.datasetA, .dssymA, .dsidA]
  | .reference => [.propA, .datasetA]
  | .comment => [.datasetA, .commentA]
  | .beta => decayRecordAttrs ++ [.energyA, .questionableA, .expectedA]
  | .ec => decayRecordAttrs
  | .alpha => decayRecordAttrs
  | .particle => decayRecordAttrs ++ [.promptEmissionA, .delayedEmissionA]
  | .gamma => decayRecordAttrs ++
      [.origLevelA, .energyA, .relIntensityA, .multipolarityA, .mixingRatioA,
       .conversionCoeffA, .relTotTransIntensityA, .questionableA, .expectedA, .attrA]

/-! ### Concrete records for witnesses and counterexamples -/

/-- An absent quantity. -/
def qNone : Quantity := { val := none, qual := .unspecified, uncert := [], offset := none }

/-- An exact untagged quantity with the given value. -/
def qVal (x : ℚ) : Quantity := { val := some x, qual := .exact, uncert := [], offset := none }

/-- A level whose energy value is `x` and whose offset tag is `off`. -/
def mkLevel (x : ℚ) (off : Option Char) : LevelR :=
  { prop := [], energy := { val := some x, qual := .exact, uncert := [], offset := off },
    angMom := [], halfLife := qNone, questionable := false, expected := false,
    metastable := false, specStrength := qNone, decays := [], populating := [] }

/-- A bare gamma record (no `FL` property) with energy value `x`, no offset
tag, and originating level index `orig`. -/
def mkGamma (x : ℚ) (orig : Option Nat) : GammaR :=
  { prop := [], energy := qVal x, relIntensity := qNone, multipolarity := [],
    mixingRatio := qNone, conversionCoeff := qNone, relTotTransIntensity := qNone,
    questionable := false, expected := false, attr := [], origLevel := orig,
    destLevel := none }

/-- The recoil formula exactly as the claim (spec §4.5 step 2) states it:
`Ei = Eγ · (1 + 0.001·Eγ / (A·amu))` — WITHOUT the source's factor 2. -/
def energyISpec (eg mass amu : ℚ) : ℚ := eg * (1 + (1 / 1000) * eg / (mass * amu))

/-! ### Claim C1 -/

/-- C1 (counterexample): for the gamma with `Eγ = 1000`, `A = 100` (nuclide
id `100MO`) and the CODATA `amu`, originating from a level at 1000, the code
computes the destination estimate with the factor-2 recoil term of core.py
line 435, and that value differs from `origin − Eγ·(1 + 0.001·Eγ/(A·amu))`
claimed by the spec — so the claim is false at this input. -/
theorem c1_counterexample :
    destEnergyEstimate amuC (lit "100MO") [mkLevel (mkRat 1000 1) none]
        (mkGamma (mkRat 1000 1) (some 0)) =
      .ok (some (some (qSub (mkRat 1000 1) (energyI (mkRat 1000 1) (mkRat 100 1) amuC)))) ∧
    qSub (mkRat 1000 1) (energyI (mkRat 1000 1) (mkRat 100 1) amuC) ≠
      (mkRat 1000 1) - energyISpec (mkRat 1000 1) (mkRat 100 1) amuC := by
  constructor
  · decide
  · have h1 : (mkRat 1000 1 : ℚ) = 1000 := by rw [Rat.mkRat_eq_div]; norm_num
    have h2 : (mkRat 100 1 : ℚ) = 100 := by rw [Rat.mkRat_eq_div]; norm_num
    have h3 : amuC = 93149410242 / 100000000 := by rw [amuC, Rat.mkRat_eq_div]; norm_num
    rw [qSub_eq, energyI_eq, energyISpec, h1, h2, h3]
    norm_num

/-- C1 (amended): for every gamma record without an `FL` property but with a
known originating level, the estimated destination energy is the
originating level energy minus `Ei`, where
`Ei = Eγ · (1 + 2·0.001·Eγ / (A·amu))` (the source carries a factor 2 the
claim lacks); `Eγ` is the gamma energy value, `A` the mass number parsed
from the dataset's nuclide id, `amu` the atomic-mass-unit energy
equivalent. -/
theorem c1_theorem (amu mass eg olE : ℚ) (nucid : Line) (levels : List LevelR)
    (g : GammaR) (i : Nat) (ol : LevelR)
    (hfl : dget g.prop (lit "FL") = none) (horig : g.origLevel = some i)
    (heg : g.energy.val = some eg) (hmass : azMass nucid = .ok mass)
    (hol : levels[i]? = some ol) (holE : ol.energy.val = some olE) :
    destEnergyEstimate amu nucid levels g =
      .ok (some (some (olE - eg * (1 + 2 * ((1 / 1000) * eg) / (mass * amu))))) := by
  simp only [destEnergyEstimate, hfl, horig, heg, hmass, hol, holE, Bind.bind, Except.bind]
  rw [qSub_eq, energyI_eq]

/-- C1 (witness): the amended theorem applied at the concrete input of the
counterexample. -/
theorem c1_witness :
    destEnergyEstimate amuC (lit "100MO") [mkLevel (mkRat 1000 1) none]
        (mkGamma (mkRat 1000 1) (some 0)) =
      .ok (some (some ((mkRat 1000 1 : ℚ) -
        (mkRat 1000 1 : ℚ) * (1 + 2 * ((1 / 1000) * (mkRat 1000 1 : ℚ)) /
          ((mkRat 100 1 : ℚ) * amuC))))) :=
  c1_theorem amuC (mkRat 100 1) (mkRat 1000 1) (mkRat 1000 1) (lit "100MO")
    [mkLevel (mkRat 1000 1) none] (mkGamma (mkRat 1000 1) (some 0)) 0
    (mkLevel (mkRat 1000 1) none) (by decide) (by decide) (by decide) (by decide)
    (by decide) (by decide)

/-! ### Claim C2 -/

/-- C2 (code bug): an abbreviation-code entry `"T GT 5"` (no `=`, no `<`,
no `>`, code `GT` surrounded by spaces) is stored under the key `"GT"` —
the SECOND token — with value `"5 GT"`, because the tuple unpacking
`quant, quant, value = entry.split(" ", maxsplit=2)` (core.py line 221)
overwrites the first token with the code; the claim (and spec §4.2 rule 3)
says the key is the first token `"T"`.  Processing does stop afterwards
(the mapping and flag below), as the claim states. -/
theorem c2_theorem :
    procEntry [] (lit "T GT 5") = .ok ([(lit "GT", lit "5 GT")], true) ∧
    loadProp [] [padTo 80 (lit "100MO 2G T GT 5")] = .ok [(lit "GT", lit "5 GT")] := by
  exact ⟨by decide, by decide⟩

/-! ### Claim C9 -/

/-- C9 (counterexample): `QValueRecord.__init__` (core.py lines 230-236)
never assigns `self.dataset`, so Q-value records produced during parsing
carry no dataset back-reference — refuting the claim for this record
kind. -/
theorem c9_counterexample : Attr.datasetA ∉ assignedAttrs RecordKind.qvalue := by decide

/-- C9 (amended): every record class a parse instantiates EXCEPT
`QValueRecord` assigns the `dataset` back-reference attribute. -/
theorem c9_theorem :
    ∀ k : RecordKind, k ≠ RecordKind.qvalue → Attr.datasetA ∈ assignedAttrs k := by
  intro k hk
  cases k
  case qvalue => exact absurd rfl hk
  all_goals decide

/-- C9 (witness): the amended theorem applied to the level record class. -/
theorem c9_witness : Attr.datasetA ∈ assignedAttrs RecordKind.level :=
  c9_theorem RecordKind.level (by decide)

/-! ### Claim C10 -/

/-- The `prop` mapping a `ParentRecord` built from a single line string
ends up with: every fixed field is the empty string. -/
def parentEmptyProp : Dict :=
  [(lit "E", []), (lit "DE", []), (lit "J", []), (lit "T", []), (lit "DT", []),
   (lit "QP", []), (lit "DQP", []), (lit "ION", [])]

/-- `ParentRecord.__init__` on a one-character first "line": every slice
from column 9 of a one-character string is empty, and the remaining
characters contribute no continuation entries. -/
theorem parentInit_header (c0 : Char) (cs : Line) :
    parentRecordInit (([c0] : Line) :: cs.map (fun ch => [ch])) =
      .ok { prop := parentEmptyProp } := by
  simp only [parentRecordInit, loadProp_charPieces, Bind.bind, Except.bind]
  rfl

/-- C10: a header-state line with `P` at column 7 (and no comment marker at
column 6) appends a `ParentRecord` built from the single line STRING rather
than a list of lines, so all of its fixed-field properties `E`, `DE`, `J`,
`T`, `DT`, `QP`, `DQP`, `ION` are the empty string regardless of the line's
content, its `prop` mapping gains no continuation entries, and construction
never raises. -/
theorem c10_theorem (st : PState) (line : Line) (c6 : Char)
    (h6 : pyAt line 6 = some c6) (h6c : c6.toUpper ∉ (['C', 'D', 'T'] : List Char))
    (h7 : pyAt line 7 = some 'P') :
    headerStep st line =
      .ok ({ st with ds :=
        { st.ds with parents := st.ds.parents ++ [{ prop := parentEmptyProp }] } }, true) := by
  cases line with
  | nil => simp [pyAt] at h7
  | cons c0 rest =>
    have hbo : isBodyOpen (c0 :: rest) = .ok false := by
      simp only [isBodyOpen, pyAtE, pyAt] at h7 ⊢
      rw [h7]
      rfl
    simp only [headerStep, h6, if_neg h6c, hbo, Bind.bind, Except.bind]
    rw [show pyAt (c0 :: rest) 7 = some 'P' from h7]
    simp only [show (('P' : Char) = 'X') = False from by simp,
      show (('P' : Char) = 'P') = True from by simp, if_false, if_true]
    rw [show (c0 :: rest).map (fun ch => ([ch] : Line)) =
      ([c0] : Line) :: rest.map (fun ch => [ch]) from rfl, parentInit_header]
    rfl

/-- A dataset state with nothing parsed yet. -/
def emptyDS : DState :=
  { nucid := [], datasetId := [], datasetRef := [], publication := [], dateRaw := []
    comments := [], history := [], historyMap := [], levels := [], records := []
    qrecords := [], parents := [], references := [], crossRefs := [] }

/-- A fresh parser state. -/
def pstate0 : PState :=
  { header := true, comments := [], record := [], xrefAcc := [], level := none, ds := emptyDS }

/-- C10 (witness): the theorem applied to a concrete parent line carrying
data in its fixed columns — the record still gets only empty properties. -/
theorem c10_witness :
    headerStep pstate0 (padTo 80 (lit "100MO  P 123.4    0.5")) =
      .ok ({ pstate0 with ds :=
        { pstate0.ds with parents :=
            pstate0.ds.parents ++ [{ prop := parentEmptyProp }] } }, true) :=
  c10_theorem pstate0 (padTo 80 (lit "100MO  P 123.4    0.5")) ' '
    (by decide) (by decide) (by decide)

/-! ### Claim C8 -/

theorem getElem?_take_eq {α : Type} (l : List α) (n i : Nat) (hi : i < n) :
    (l.take n)[i]? = l[i]? := by
  induction l generalizing n i with
  | nil => simp
  | cons x xs ih =>
    cases n with
    | zero => omega
    | succ n =>
      cases i with
      | zero => simp
      | succ i => simpa using ih n i (by omega)

/-- C8: the body-state classifier of `_parse_dataset` is a function of
columns 5-8 only: two 80-character body lines that agree on columns 0-8
(here: on the 9-column prefix) receive the same classification — record
start, cross-reference continuation, plain continuation, comment-block
start, comment-block continuation, or fallback continuation — regardless
of columns 9-80. -/
theorem c8_theorem (l1 l2 : Line) (_hl1 : l1.length = 80) (_hl2 : l2.length = 80)
    (h : l1.take 9 = l2.take 9) : classifyBody l1 = classifyBody l2 := by
  have h7 : l1[7]? = l2[7]? := by
    rw [← getElem?_take_eq l1 9 7 (by omega), ← getElem?_take_eq l2 9 7 (by omega), h]
  have h8 : l1[8]? = l2[8]? := by
    rw [← getElem?_take_eq l1 9 8 (by omega), ← getElem?_take_eq l2 9 8 (by omega), h]
  have h6 : l1[6]? = l2[6]? := by
    rw [← getElem?_take_eq l1 9 6 (by omega), ← getElem?_take_eq l2 9 6 (by omega), h]
  have e1 : (l1.take 9).take 7 = l1.take 7 := by rw [List.take_take]; norm_num
  have e2 : (l2.take 9).take 7 = l2.take 7 := by rw [List.take_take]; norm_num
  have h57 : pySlice l1 5 7 = pySlice l2 5 7 := by
    rw [pySlice, pySlice, ← e1, ← e2, h]
  simp only [classifyBody, isBodyOpen, pyAtE, pyAt, h7, h8, h6, h57]

/-- C8 (witness): two concrete 80-column lines identical in columns 0-8 and
different beyond column 8 classify identically. -/
theorem c8_witness :
    padTo 80 (lit "100MO  L AAAA") ≠ padTo 80 (lit "100MO  L BBBB") ∧
    classifyBody (padTo 80 (lit "100MO  L AAAA")) =
      classifyBody (padTo 80 (lit "100MO  L BBBB")) :=
  ⟨by decide, c8_theorem (padTo 80 (lit "100MO  L AAAA")) (padTo 80 (lit "100MO  L BBBB"))
    (by decide) (by decide) (by decide)⟩

/-! ### Claim C6 -/

/-- C6 (counterexample): a dataset whose only history line carries
`A=1$B=2` (content after column 9, NOT `$`-terminated).  The segment
`B=2...` is not a trailing empty segment and contains `=`, yet the history
mapping does not contain `B`: `history.split("$")[:-1]` (core.py line 181)
drops the LAST segment unconditionally, not just a trailing empty one —
refuting the claim. -/
theorem c6_counterexample :
    (parseDataset amuC c6badText).map
        (fun ds => (dget ds.historyMap (lit "A"), dget ds.historyMap (lit "B"))) =
      .ok (some (lit "1"), none) := by
  decide

/-- C6 (amended): after the full body pass the history buffer is split on
`$` and the FINAL segment is always discarded (whatever its content — when
every history line's content ends with `$` only trailing padding is lost);
each remaining segment with `=` contributes the trimmed key/value pair
split at the first `=`, segments without `=` are skipped without error, and
for header H lines whose text after column 9 is `TYP=B+$MOM=GS$` the
history mapping contains `TYP ↦ B+` and `MOM ↦ GS`. -/
theorem c6_theorem :
    (∀ (segs : List Line) (last : Line), (∀ s ∈ segs, '$' ∉ s) → '$' ∉ last →
      parseHistory (joinSep '$' (segs ++ [last])) = segs.foldl historyStep []) ∧
    (∀ (d : Dict) (entry k v : Line), splitFirst '=' entry = some (k, v) →
      historyStep d entry = dictInsert d (strip k) (strip v)) ∧
    (∀ (d : Dict) (entry : Line), splitFirst '=' entry = none →
      historyStep d entry = d) ∧
    (parseDataset amuC c6text).map (fun ds => ds.historyMap) =
      .ok [(lit "TYP", lit "B+"), (lit "MOM", lit "GS")] := by
  refine ⟨?_, ?_, ?_, by decide⟩
  · intro segs last hsegs hlast
    have hall : ∀ s ∈ segs ++ [last], '$' ∉ s := by
      intro s hs
      rcases List.mem_append.mp hs with hs | hs
      · exact hsegs s hs
      · rw [List.mem_singleton.mp hs]
        exact hlast
    rw [parseHistory, splitChar_join '$' (segs ++ [last]) hall (by simp),
      List.dropLast_concat]
  · intro d entry k v hsp
    rw [historyStep, hsp]
  · intro d entry hsp
    rw [historyStep, hsp]

/-- C6 (witness): the general part applied to the segments of the concrete
`TYP=B+$MOM=GS$` buffer. -/
theorem c6_witness :
    parseHistory (joinSep '$' ([lit "TYP=B+", lit "MOM=GS"] ++ [lit " "])) =
      [(lit "TYP", lit "B+"), (lit "MOM", lit "GS")] := by
  rw [c6_theorem.1 [lit "TYP=B+", lit "MOM=GS"] (lit " ") (by decide) (by decide)]
  decide

/-! ### Claim C7 -/

/-- C7 (counterexample): the dataset text `c7text` ends with a NON-empty
level record line and no trailing newline; the loop over `self.raw[:-1]`
(core.py line 110) discards that final line unconditionally, so only ONE
level is parsed — while the same text with a terminating newline yields
two.  This refutes the claim that a non-empty final line is still
classified and contributes to the parsed records. -/
theorem c7_counterexample :
    (parseDataset amuC c7text).map (fun ds => ds.levels.length) = .ok 1 ∧
    (parseDataset amuC (joinSep '\n' [hdrLine, levelLine0, levelLine1000, []])).map
        (fun ds => ds.levels.length) = .ok 2 := by
  exact ⟨by decide, by decide⟩

/-- C7 (amended): all body lines EXCEPT the final one are processed — the
final line of the dataset text is always discarded, whether empty or not:
the parse result never depends on the content of the last line. -/
theorem c7_theorem (amu : ℚ) (hdr : Line) (raw : List Line) (l1 l2 : Line)
    (hhdr : '\n' ∉ hdr) (hraw : ∀ s ∈ raw, '\n' ∉ s)
    (hl1 : '\n' ∉ l1) (hl2 : '\n' ∉ l2) :
    parseDataset amu (joinSep '\n' (hdr :: (raw ++ [l1]))) =
      parseDataset amu (joinSep '\n' (hdr :: (raw ++ [l2]))) := by
  have hs1 : splitChar '\n' (joinSep '\n' (hdr :: (raw ++ [l1]))) = hdr :: (raw ++ [l1]) := by
    refine splitChar_join '\n' _ ?_ (by simp)
    intro s hs
    rcases List.mem_cons.mp hs with hs | hs
    · rw [hs]; exact hhdr
    · rcases List.mem_append.mp hs with hs | hs
      · exact hraw s hs
      · rw [List.mem_singleton.mp hs]; exact hl1
  have hs2 : splitChar '\n' (joinSep '\n' (hdr :: (raw ++ [l2]))) = hdr :: (raw ++ [l2]) := by
    refine splitChar_join '\n' _ ?_ (by simp)
    intro s hs
    rcases List.mem_cons.mp hs with hs | hs
    · rw [hs]; exact hhdr
    · rcases List.mem_append.mp hs with hs | hs
      · exact hraw s hs
      · rw [List.mem_singleton.mp hs]; exact hl2
  rw [parseDataset, parseDataset, hs1, hs2]
  simp only [List.dropLast_concat]

/-- C7 (witness): the amended theorem at a concrete dataset — replacing the
final line by arbitrary garbage does not change the parse. -/
theorem c7_witness :
    parseDataset amuC (joinSep '\n' (hdrLine :: ([levelLine0] ++ [levelLine1000]))) =
      parseDataset amuC (joinSep '\n' (hdrLine :: ([levelLine0] ++ [padTo 80 (lit "@@@@")]))) :=
  c7_theorem amuC hdrLine [levelLine0] levelLine1000 (padTo 80 (lit "@@@@"))
    (by decide) (by decide) (by decide) (by decide)

/-! ### Claims C3, C4, C5: destination resolution -/

theorem decaysUpd_map_energy (levels : List LevelR) (orig : Option Nat) (gid : Nat) :
    (decaysUpd levels orig gid).map (fun l => l.energy) = levels.map (fun l => l.energy) := by
  cases orig with
  | none => rfl
  | some i =>
    simp only [decaysUpd]
    exact modifyIdx_map_eq (fun l => { l with decays := l.decays ++ [gid] })
      (fun l => l.energy) (fun x => rfl) levels i

theorem decaysUpd_map_populating (levels : List LevelR) (orig : Option Nat) (gid : Nat) :
    (decaysUpd levels orig gid).map LevelR.populating = levels.map LevelR.populating := by
  cases orig with
  | none => rfl
  | some i =>
    simp only [decaysUpd]
    exact modifyIdx_map_eq (fun l => { l with decays := l.decays ++ [gid] })
      LevelR.populating (fun x => rfl) levels i

theorem decaysUpd_getElem (levels : List LevelR) (i gid : Nat) (l0 : LevelR)
    (h : levels[i]? = some l0) :
    (decaysUpd levels (some i) gid)[i]? = some { l0 with decays := l0.decays ++ [gid] } := by
  rw [decaysUpd, modifyIdx_getElem, if_pos rfl, h]
  rfl

/-- C4: a gamma record whose filtered candidate set of destination levels is
empty (no level's energy offset tag equals the gamma's) resolves without
raising: construction succeeds, `dest_level` stays absent, and no level's
`populating` list is modified — so the parse of the rest of the dataset
continues normally.  (The offset hypothesis is phrased through the
constructed record's own energy offset `o`.) -/
theorem c4_theorem (amu : ℚ) (nucid : Line) (levels : List LevelR) (gid : Nat)
    (record : List Line) (orig : Option Nat) (o : Option Char)
    (hoff : (gammaInit amu nucid levels gid record orig).map
        (fun pr => pr.1.energy.offset) = .ok o)
    (hmis : ∀ l ∈ levels, l.energy.offset ≠ o) :
    (gammaInit amu nucid levels gid record orig).map (fun pr => pr.1.destLevel) = .ok none ∧
    (gammaInit amu nucid levels gid record orig).map
        (fun pr => pr.2.map LevelR.populating) = .ok (levels.map LevelR.populating) := by
  cases hf : gammaFields record with
  | error e =>
    rw [gammaInit] at hoff
    simp [hf, Bind.bind, Except.bind, Except.map] at hoff
  | ok f =>
    cases hd : determineDest amu nucid (decaysUpd levels orig gid) (buildGamma f orig) with
    | error e =>
      rw [gammaInit] at hoff
      simp [hf, hd, Bind.bind, Except.bind, Except.map] at hoff
    | ok r =>
      have ho : (buildGamma f orig).energy.offset = o := by
        rw [gammaInit] at hoff
        cases r with
        | none =>
          simp only [hf, hd, Bind.bind, Except.bind, Except.map, Except.ok.injEq] at hoff
          exact hoff
        | some i =>
          simp only [hf, hd, Bind.bind, Except.bind, Except.map, Except.ok.injEq] at hoff
          exact hoff
      have hfil : (enumL 0 (decaysUpd levels orig gid)).filter
          (fun p => p.2.energy.offset = (buildGamma f orig).energy.offset) = [] := by
        rw [List.filter_eq_nil_iff]
        intro p hp
        simp only [decide_eq_true_eq]
        have hmem : p.2 ∈ decaysUpd levels orig gid :=
          enumL_snd_mem 0 p.1 (decaysUpd levels orig gid) p.2 (by
            obtain ⟨i, l⟩ := p
            exact hp)
        have henergy : p.2.energy ∈ (decaysUpd levels orig gid).map (fun l => l.energy) :=
          List.mem_map_of_mem _ hmem
        rw [decaysUpd_map_energy] at henergy
        obtain ⟨l0, hl0mem, hl0e⟩ := List.mem_map.mp henergy
        rw [ho, ← hl0e]
        exact hmis l0 hl0mem
      have hr : r = none := by
        cases hde : destEnergyEstimate amu nucid (decaysUpd levels orig gid)
            (buildGamma f orig) with
        | error e =>
          rw [determineDest] at hd
          simp [hde, Bind.bind, Except.bind] at hd
        | ok de =>
          cases de with
          | none =>
            rw [determineDest] at hd
            simp only [hde, Bind.bind, Except.bind, Except.ok.injEq] at hd
            exact hd.symm
          | some dOpt =>
            rw [determineDest] at hd
            simp only [hde, hfil, Bind.bind, Except.bind, Except.ok.injEq] at hd
            exact hd.symm
      subst hr
      constructor
      · rw [gammaInit]
        simp only [hf, hd, Bind.bind, Except.bind, Except.map]
        rfl
      · rw [gammaInit]
        simp only [hf, hd, Bind.bind, Except.bind, Except.map, Except.ok.injEq]
        exact decaysUpd_map_populating levels orig gid

/-- A level with an offset-tagged energy used by the C4 witness. -/
def c4Level : LevelR := mkLevel (mkRat 100 1) (some 'X')

/-- C4 (witness): a concrete gamma (energy `1000`, untagged) over a level
list whose only level carries offset tag `X`: construction succeeds,
`dest_level` is `none`, `populating` lists untouched. -/
theorem c4_witness :
    (gammaInit amuC (lit "100MO") [c4Level] 0 [gammaLine1000] (some 0)).map
        (fun pr => pr.1.destLevel) = .ok none ∧
    (gammaInit amuC (lit "100MO") [c4Level] 0 [gammaLine1000] (some 0)).map
        (fun pr => pr.2.map LevelR.populating) = .ok ([c4Level].map LevelR.populating) :=
  c4_theorem amuC (lit "100MO") [c4Level] 0 [gammaLine1000] (some 0) none
    (by decide) (by decide)

/-! ### Claim C5 -/

theorem popUpd_getElem_decays (lv : List LevelR) (j gid i : Nat) :
    ((modifyIdx (fun l => { l with populating := l.populating ++ [gid] }) lv j)[i]?).map
        LevelR.decays = (lv[i]?).map LevelR.decays := by
  rw [modifyIdx_getElem]
  by_cases h : i = j
  · subst h
    rw [if_pos rfl]
    cases lv[i]? <;> rfl
  · rw [if_neg h]

/-- C5 (counterexample): the two-record dataset of the claim — one
ground-state level at `"0"` followed by one gamma with `E="1000"`, no `FL`,
originating from it.  The candidate set is NOT empty (the ground-state
level itself matches the absent offset tag), so `dest_level` resolves to
that level (index 0) — not to `None` as claimed — and the gamma is even
appended to the level's `populating` list.  The `decays` part of the claim
does hold: the level's `decays` is exactly `[0]`, the gamma. -/
theorem c5_counterexample :
    (parseDataset amuC c5text).map
        (fun ds => (ds.levels.map levelSummary, ds.records.map recDest)) =
      .ok ([(some (mkRat 0 1), none, [0], [0])], [some 0]) := by
  decide

/-- C5 (amended): a gamma constructed with a non-absent originating level is
appended to that level's `decays` list whatever destination resolution then
does (the update happens before resolution and is never rolled back); in
the claim's one-level dataset, resolution picks the ground-state level
itself as `dest_level` (sole offset-matching candidate) rather than leaving
it absent, and the level's `decays` list contains exactly the gamma. -/
theorem c5_theorem :
    (∀ (amu : ℚ) (nucid : Line) (levels : List LevelR) (gid : Nat) (record : List Line)
        (i : Nat) (l0 : LevelR), levels[i]? = some l0 →
      (gammaInit amu nucid levels gid record (some i)).map
          (fun pr => (pr.2[i]?).map LevelR.decays) =
        (gammaInit amu nucid levels gid record (some i)).map
          (fun _ => some (l0.decays ++ [gid]))) ∧
    (parseDataset amuC c5text).map
        (fun ds => (ds.levels.map levelSummary, ds.records.map recDest)) =
      .ok ([(some (mkRat 0 1), none, [0], [0])], [some 0]) := by
  refine ⟨?_, by decide⟩
  intro amu nucid levels gid record i l0 hl0
  cases hf : gammaFields record with
  | error e => simp [gammaInit, hf, Bind.bind, Except.bind, Except.map]
  | ok f =>
    cases hd : determineDest amu nucid (decaysUpd levels (some i) gid)
        (buildGamma f (some i)) with
    | error e => simp [gammaInit, hf, hd, Bind.bind, Except.bind, Except.map]
    | ok r =>
      cases r with
      | none =>
        simp only [gammaInit, hf, hd, Bind.bind, Except.bind, Except.map, Except.ok.injEq]
        rw [decaysUpd_getElem levels i gid l0 hl0]
        rfl
      | some j =>
        simp only [gammaInit, hf, hd, Bind.bind, Except.bind, Except.map, Except.ok.injEq]
        rw [popUpd_getElem_decays, decaysUpd_getElem levels i gid l0 hl0]
        rfl

/-- C5 (witness): the general part applied to the claim's concrete
scenario records. -/
theorem c5_witness :
    (gammaInit amuC (lit "100MO") [mkLevel (mkRat 0 1) none] 0 [gammaLine1000] (some 0)).map
        (fun pr => (pr.2[0]?).map LevelR.decays) =
      (gammaInit amuC (lit "100MO") [mkLevel (mkRat 0 1) none] 0 [gammaLine1000] (some 0)).map
        (fun _ => some ((mkLevel (mkRat 0 1) none).decays ++ [0])) :=
  c5_theorem.1 amuC (lit "100MO") [mkLevel (mkRat 0 1) none] 0 [gammaLine1000] 0
    (mkLevel (mkRat 0 1) none) (by decide)

/-! ### Claim C3 -/

/-- The destination estimate of the C3 witness scenario. -/
def c3dest : ℚ := qSub (mkRat 1000 1) (energyI (mkRat 1000 1) (mkRat 100 1) amuC)

/-- C3: whenever destination resolution picks a level, that level belongs to
the candidate set — the dataset's levels whose energy offset tag equals the
gamma energy's offset tag (both absent counting as equal) — and its energy
has the minimum absolute difference from the estimated destination energy
among ALL offset-matching levels; and in the dataset with Level A at `"0"`,
Level B at `"1000"` and a 1000-keV gamma from B, Level A (index 0) becomes
`dest_level` and the gamma is appended to Level A's `populating` list. -/
theorem c3_theorem :
    (∀ (amu : ℚ) (nucid : Line) (levels : List LevelR) (g : GammaR) (i : Nat) (d : ℚ),
      destEnergyEstimate amu nucid levels g = .ok (some (some d)) →
      determineDest amu nucid levels g = .ok (some i) →
      ∀ li, levels[i]? = some li →
        li.energy.offset = g.energy.offset ∧
        (∀ vi, li.energy.val = some vi →
          ∀ (j : Nat) (lj : LevelR) (vj : ℚ), levels[j]? = some lj →
            lj.energy.offset = g.energy.offset → lj.energy.val = some vj →
            |vi - d| ≤ |vj - d|)) ∧
    (parseDataset amuC c3text).map
        (fun ds => (ds.levels.map levelSummary, ds.records.map recDest)) =
      .ok ([(some (mkRat 0 1), none, [], [0]), (some (mkRat 1000 1), none, [0], [])],
        [some 0]) := by
  refine ⟨?_, by decide⟩
  intro amu nucid levels g i d hde hdd li hli
  rw [determineDest] at hdd
  simp only [hde, Bind.bind, Except.bind] at hdd
  cases hfil : (enumL 0 levels).filter (fun p => p.2.energy.offset = g.energy.offset) with
  | nil => rw [hfil] at hdd; simp at hdd
  | cons c cs =>
    rw [hfil] at hdd
    cases hcv : candVals (c :: cs) with
    | error e => simp [hcv, Bind.bind, Except.bind] at hdd
    | ok cvals =>
      simp only [hcv, Bind.bind, Except.bind] at hdd
      cases ham : argminAbs d cvals with
      | none => rw [ham] at hdd; simp at hdd
      | some p =>
        obtain ⟨i', v⟩ := p
        rw [ham] at hdd
        simp only [Except.ok.injEq, Option.some_inj] at hdd
        subst hdd
        obtain ⟨hmem, hmin⟩ := argminAbs_spec d cvals i' v ham
        obtain ⟨l, hlmem, hlv⟩ := candVals_mem_rev (c :: cs) cvals hcv i' v hmem
        rw [← hfil] at hlmem
        obtain ⟨hlenum, hlpred⟩ := List.mem_filter.mp hlmem
        obtain ⟨k, hk, hkget⟩ := enumL_getElem_of_mem 0 i' levels l hlenum
        have hkeq : k = i' := by omega
        subst hkeq
        rw [hli] at hkget
        have hlieq : li = l := Option.some.inj hkget
        subst hlieq
        have hoff : li.energy.offset = g.energy.offset := by
          simpa [decide_eq_true_eq] using hlpred
        refine ⟨hoff, ?_⟩
        intro vi hvi j lj vj hlj hljoff hljval
        have hvieq : vi = v := Option.some.inj (hvi.symm.trans hlv)
        subst hvieq
        have hjenum : (j, lj) ∈ enumL 0 levels := by
          have := enumL_mem_of_getElem 0 j levels lj hlj
          simpa using this
        have hjfil : (j, lj) ∈ (enumL 0 levels).filter
            (fun p => p.2.energy.offset = g.energy.offset) := by
          rw [List.mem_filter]
          exact ⟨hjenum, by simpa [decide_eq_true_eq] using hljoff⟩
        rw [hfil] at hjfil
        have hjcv : (j, vj) ∈ cvals := candVals_mem_of (c :: cs) cvals hcv j lj vj hjfil hljval
        exact hmin (j, vj) hjcv

/-- C3 (witness): the general part at the concrete two-level scenario —
Level A (energy 0, untagged) matches the gamma's absent offset tag and is
nearest to the recoil-corrected estimate; in particular it beats Level B. -/
theorem c3_witness :
    (mkLevel (mkRat 0 1) none).energy.offset = (mkGamma (mkRat 1000 1) (some 1)).energy.offset ∧
    |(mkRat 0 1 : ℚ) - c3dest| ≤ |(mkRat 1000 1 : ℚ) - c3dest| := by
  have h := c3_theorem.1 amuC (lit "100MO")
    [mkLevel (mkRat 0 1) none, mkLevel (mkRat 1000 1) none]
    (mkGamma (mkRat 1000 1) (some 1)) 0 c3dest (by decide) (by decide)
    (mkLevel (mkRat 0 1) none) (by decide)
  exact ⟨h.1, h.2 (mkRat 0 1) (by decide) 1 (mkLevel (mkRat 1000 1) none) (mkRat 1000 1)
    (by decide) (by decide) (by decide)⟩

end Ensdf
